import Mathlib

/-
  Verification development for the zoom query/index engine
  (src/util.go, src/model.go).

  The Redis store is modelled from the interface description in the
  specification (abstract command vocabulary, section 6): an unordered set is
  a list of member strings and a sorted set is a list of (score, member)
  pairs; every read command first sorts by (score, member-lexicographic),
  which is the invariant Redis itself maintains.  Scores are modelled as
  integers (every score the engine ever stores is an integer: field values,
  the 0/1 encoding of booleans, and the constant 0 for alpha indexes).

  Each evaluation function returns, next to its result, the list of store
  commands it issued, so that claims about which commands run are statable.
-/

namespace Zoom

/-! ### Character/string comparison (byte-wise, as Redis compares members) -/

/-- Lexicographic strict comparison of char lists by code point.  This is the
member ordering Redis uses inside a sorted set when scores tie. -/
def charListLtB : List Char → List Char → Bool
  | _, [] => false
  | [], _ :: _ => true
  | a :: as, b :: bs =>
    if a.toNat < b.toNat then true
    else if b.toNat < a.toNat then false
    else charListLtB as bs

/-- Strict lexicographic comparison of strings. -/
def strLtB (a b : String) : Bool := charListLtB a.data b.data

/-- Non-strict lexicographic comparison of strings. -/
def strLeB (a b : String) : Bool := !(strLtB b a)

theorem charListLtB_asymm : ∀ {x y : List Char},
    charListLtB x y = true → charListLtB y x = false := by
  intro x
  induction x with
  | nil =>
    intro y h
    cases y with
    | nil => simp [charListLtB] at h
    | cons b bs => simp [charListLtB]
  | cons a as ih =>
    intro y h
    cases y with
    | nil => simp [charListLtB] at h
    | cons b bs =>
      by_cases hab : a.toNat < b.toNat
      · simp only [charListLtB, if_neg (by omega : ¬ b.toNat < a.toNat), if_pos hab]
      · by_cases hba : b.toNat < a.toNat
        · simp only [charListLtB, if_neg hab, if_pos hba] at h
          exact absurd h (by simp)
        · simp only [charListLtB, if_neg hab, if_neg hba] at h
          simp only [charListLtB, if_neg hba, if_neg hab]
          exact ih h

theorem charListLtB_trans : ∀ {x y z : List Char},
    charListLtB x y = true → charListLtB y z = true → charListLtB x z = true := by
  intro x
  induction x with
  | nil =>
    intro y z hxy hyz
    cases y with
    | nil => simp [charListLtB] at hxy
    | cons b bs =>
      cases z with
      | nil => simp [charListLtB] at hyz
      | cons c cs => simp [charListLtB]
  | cons a as ih =>
    intro y z hxy hyz
    cases y with
    | nil => simp [charListLtB] at hxy
    | cons b bs =>
      cases z with
      | nil => simp [charListLtB] at hyz
      | cons c cs =>
        simp only [charListLtB] at hxy hyz ⊢
        by_cases hab : a.toNat < b.toNat
        · by_cases hbc : b.toNat < c.toNat
          · rw [if_pos (by omega : a.toNat < c.toNat)]
          · by_cases hcb : c.toNat < b.toNat
            · rw [if_neg hbc, if_pos hcb] at hyz
              exact absurd hyz (by simp)
            · rw [if_pos (by omega : a.toNat < c.toNat)]
        · by_cases hba : b.toNat < a.toNat
          · rw [if_neg hab, if_pos hba] at hxy
            exact absurd hxy (by simp)
          · rw [if_neg hab, if_neg hba] at hxy
            by_cases hbc : b.toNat < c.toNat
            · rw [if_pos (by omega : a.toNat < c.toNat)]
            · by_cases hcb : c.toNat < b.toNat
              · rw [if_neg hbc, if_pos hcb] at hyz
                exact absurd hyz (by simp)
              · rw [if_neg hbc, if_neg hcb] at hyz
                rw [if_neg (by omega : ¬ a.toNat < c.toNat),
                  if_neg (by omega : ¬ c.toNat < a.toNat)]
                exact ih hxy hyz

/-- Comparison against a third list splits a strict comparison. -/
theorem charListLtB_or : ∀ {x z : List Char} (y : List Char),
    charListLtB x z = true → charListLtB x y = true ∨ charListLtB y z = true := by
  intro x
  induction x with
  | nil =>
    intro z y hxz
    cases z with
    | nil => simp [charListLtB] at hxz
    | cons c cs =>
      cases y with
      | nil => exact Or.inr (by simp [charListLtB])
      | cons b bs => exact Or.inl (by simp [charListLtB])
  | cons a as ih =>
    intro z y hxz
    cases z with
    | nil => simp [charListLtB] at hxz
    | cons c cs =>
      cases y with
      | nil => exact Or.inr (by simp [charListLtB])
      | cons b bs =>
        simp only [charListLtB] at hxz ⊢
        by_cases hab : a.toNat < b.toNat
        · exact Or.inl (by rw [if_pos hab])
        · by_cases hba : b.toNat < a.toNat
          · -- b < a; since x < z, the head comparison gives b < c or recursion
            by_cases hac : a.toNat < c.toNat
            · exact Or.inr (by rw [if_pos (by omega : b.toNat < c.toNat)])
            · by_cases hca : c.toNat < a.toNat
              · rw [if_neg hac, if_pos hca] at hxz
                exact absurd hxz (by simp)
              · exact Or.inr (by rw [if_pos (by omega : b.toNat < c.toNat)])
          · -- heads a and b compare equal
            by_cases hbc : b.toNat < c.toNat
            · exact Or.inr (by rw [if_pos hbc])
            · by_cases hcb : c.toNat < b.toNat
              · rw [if_neg (by omega : ¬ a.toNat < c.toNat),
                  if_pos (by omega : c.toNat < a.toNat)] at hxz
                exact absurd hxz (by simp)
              · rw [if_neg (by omega : ¬ a.toNat < c.toNat),
                  if_neg (by omega : ¬ c.toNat < a.toNat)] at hxz
                rcases ih bs hxz with h | h
                · exact Or.inl (by rw [if_neg hab, if_neg hba]; exact h)
                · exact Or.inr (by rw [if_neg hbc, if_neg hcb]; exact h)

/-! ### Sorted-set member ordering and sorting -/

/-- The (score, member) ordering of a Redis sorted set: by score first, ties
broken by byte-wise member comparison. -/
def pairLe (a b : Int × String) : Prop :=
  a.1 < b.1 ∨ (a.1 = b.1 ∧ strLeB a.2 b.2 = true)

instance : DecidableRel pairLe := fun a b =>
  decidable_of_iff (a.1 < b.1 ∨ (a.1 = b.1 ∧ strLeB a.2 b.2 = true)) Iff.rfl

instance : IsTotal (Int × String) pairLe := by
  constructor
  intro a b
  rcases lt_trichotomy a.1 b.1 with h | h | h
  · exact Or.inl (Or.inl h)
  · by_cases hs : strLtB b.2 a.2 = true
    · have : strLtB a.2 b.2 = false := charListLtB_asymm hs
      exact Or.inr (Or.inr ⟨h.symm, by simp [strLeB, this]⟩)
    · exact Or.inl (Or.inr ⟨h, by simp [strLeB, hs]⟩)
  · exact Or.inr (Or.inl h)

instance : IsTrans (Int × String) pairLe := by
  constructor
  intro a b c hab hbc
  rcases hab with h1 | ⟨h1, h1s⟩ <;> rcases hbc with h2 | ⟨h2, h2s⟩
  · exact Or.inl (h1.trans h2)
  · exact Or.inl (h2 ▸ h1)
  · exact Or.inl (h1 ▸ h2)
  · refine Or.inr ⟨h1.trans h2, ?_⟩
    simp only [strLeB, Bool.not_eq_true'] at h1s h2s ⊢
    by_cases hca : strLtB c.2 a.2 = true
    · rcases charListLtB_or b.2.data hca with h | h
      · exact absurd h (by simp [strLtB] at h2s ⊢; exact h2s)
      · exact absurd h (by simp [strLtB] at h1s ⊢; exact h1s)
    · simpa using hca

/-- Sorting a raw sorted-set representation into the score-then-member order
in which Redis keeps and returns members. -/
def zsort (l : List (Int × String)) : List (Int × String) :=
  List.insertionSort pairLe l

theorem zsort_sorted (l : List (Int × String)) : List.Sorted pairLe (zsort l) :=
  List.sorted_insertionSort pairLe l

theorem zsort_perm (l : List (Int × String)) : List.Perm (zsort l) l :=
  List.perm_insertionSort pairLe l

theorem zsort_length (l : List (Int × String)) : (zsort l).length = l.length :=
  (zsort_perm l).length_eq

theorem zsort_mem {l : List (Int × String)} {p : Int × String} :
    p ∈ zsort l ↔ p ∈ l :=
  (zsort_perm l).mem_iff

/-! ### Store model: command vocabulary -/

/-- A score bound for ZRANGEBYSCORE, the structured reading of the min/max
argument strings the engine builds (negative/positive infinity, inclusive
value, or exclusive value written with a leading parenthesis in Go). -/
inductive ScoreBound
  | negInf
  | posInf
  | incl (v : Int)
  | excl (v : Int)
deriving DecidableEq

/-- The store commands the query engine issues. -/
inductive RedisCommand
  | smembers (key : String)
  | srandmember (key : String) (n : Nat)
  | scard (key : String)
  | zcard (key : String)
  | zrange (key : String) (start stop : Int)
  | zrevrange (key : String) (start stop : Int)
  | zrangebyscore (key : String) (mn mx : ScoreBound)
  | zrevrangebyscore (key : String) (mx mn : ScoreBound)
  | zadd (key : String) (score : Int) (member : String)
  | zrank (key : String) (member : String)
  | zrem (key : String) (members : List String)
deriving DecidableEq

/-- The external schemaless store: unordered sets and sorted sets by key. -/
structure Store where
  sets : String → List String
  zsets : String → List (Int × String)

def scoreGeMin : ScoreBound → Int → Bool
  | .negInf, _ => true
  | .posInf, _ => false
  | .incl v, s => v ≤ s
  | .excl v, s => v < s

def scoreLeMax : ScoreBound → Int → Bool
  | .negInf, _ => false
  | .posInf, _ => true
  | .incl v, s => s ≤ v
  | .excl v, s => s < v

/-- ZRANGEBYSCORE: members whose score lies within the bounds, in sorted
order. -/
def zrangebyscore (l : List (Int × String)) (mn mx : ScoreBound) : List String :=
  ((zsort l).filter (fun p => scoreGeMin mn p.1 && scoreLeMax mx p.1)).map (fun p => p.2)

/-- ZREVRANGEBYSCORE: same member set, reversed (descending) order; note the
max bound comes first, as in the Redis argument order. -/
def zrevrangebyscore (l : List (Int × String)) (mx mn : ScoreBound) : List String :=
  (zrangebyscore l mn mx).reverse

/-- Rank-range extraction with the Redis index conventions: negative indexes
count from the end, the stop index is clamped to the last element, and an
empty list results when start exceeds stop or the length. -/
def rankSlice (l : List (Int × String)) (start stop : Int) : List String :=
  let len : Int := l.length
  let s := if start < 0 then max (len + start) 0 else start
  let e0 := if stop < 0 then len + stop else stop
  let e := min e0 (len - 1)
  if s > e then []
  else ((l.drop s.toNat).take (e - s + 1).toNat).map (fun p => p.2)

/-- ZRANGE by rank (ascending). -/
def zrange (l : List (Int × String)) (start stop : Int) : List String :=
  rankSlice (zsort l) start stop

/-- ZREVRANGE by rank (descending). -/
def zrevrange (l : List (Int × String)) (start stop : Int) : List String :=
  rankSlice (zsort l).reverse start stop

/-- ZADD: update the score of an existing member or append a new member. -/
def zadd (score : Int) (member : String) (l : List (Int × String)) :
    List (Int × String) :=
  if l.any (fun p => p.2 == member) then
    l.map (fun p => if p.2 == member then (score, member) else p)
  else l ++ [(score, member)]

/-- ZREM: remove the given members. -/
def zrem (members : List String) (l : List (Int × String)) : List (Int × String) :=
  l.filter (fun p => !(members.contains p.2))

/-- ZRANK: the zero-based position of a member in the sorted order.  In the
engine a rank is only ever read for a member that was just inserted, so the
missing-member case (Redis nil, which would fail the Go transaction scan)
cannot occur; the model totalises it to the list length. -/
def zrank (member : String) (l : List (Int × String)) : Nat :=
  ((zsort l).map (fun p => p.2)).indexOf member

/-- ZCARD: number of members of a sorted set. -/
def zcard (l : List (Int × String)) : Int := l.length

/-- SRANDMEMBER with a positive count returns `n` distinct random members;
the spec imposes no sampling requirement beyond returning limit elements, and
the model takes the first `n`. -/
def srandmember (l : List String) (n : Nat) : List String := l.take n

/-! ### String splitting (Go strings.Split with a single-space separator) -/

/-- Split a list of characters at every space, keeping empty groups, exactly
as Go strings.Split(s, " ") does on the underlying bytes. -/
def splitOnSpace : List Char → List (List Char)
  | [] => [[]]
  | c :: rest =>
    match splitOnSpace rest with
    | [] => [[]]
    | g :: gs => if c = ' ' then [] :: g :: gs else (c :: g) :: gs

theorem splitOnSpace_ne_nil (l : List Char) : splitOnSpace l ≠ [] := by
  cases l with
  | nil => simp [splitOnSpace]
  | cons c rest =>
    simp only [splitOnSpace]
    match h : splitOnSpace rest with
    | [] => simp
    | g :: gs =>
      by_cases hc : c = ' '
      · simp [hc]
      · simp [hc]

theorem splitOnSpace_no_space {l : List Char} (h : ' ' ∉ l) :
    splitOnSpace l = [l] := by
  induction l with
  | nil => rfl
  | cons c rest ih =>
    have hc : c ≠ ' ' := fun hc => h (hc ▸ List.mem_cons_self c rest)
    have hrest : ' ' ∉ rest := fun hr => h (List.mem_cons_of_mem c hr)
    simp only [splitOnSpace, ih hrest, if_neg hc]

/-- Appending a space-free suffix after a space: the split ends with exactly
that suffix as its last group. -/
theorem splitOnSpace_append_space (xs ys : List Char) :
    (splitOnSpace (xs ++ ' ' :: ys)).getLastD [] = (splitOnSpace ys).getLastD [] := by
  induction xs with
  | nil =>
    simp only [List.nil_append, splitOnSpace]
    match h : splitOnSpace ys with
    | [] => exact absurd h (splitOnSpace_ne_nil ys)
    | g :: gs => simp
  | cons c xs ih =>
    simp only [List.cons_append, splitOnSpace]
    match h : splitOnSpace (xs ++ ' ' :: ys) with
    | [] => exact absurd h (splitOnSpace_ne_nil _)
    | g :: gs =>
      by_cases hc : c = ' '
      · simp only [if_pos hc]
        rw [← ih, h]
        simp
      · simp only [if_neg hc]
        rw [← ih, h]
        cases gs with
        | nil =>
          -- impossible: a list containing a space splits into at least two groups
          exfalso
          have : 2 ≤ (splitOnSpace (xs ++ ' ' :: ys)).length := by
            clear h ih hc
            induction xs with
            | nil =>
              simp only [List.nil_append, splitOnSpace]
              match h2 : splitOnSpace ys with
              | [] => exact absurd h2 (splitOnSpace_ne_nil ys)
              | g2 :: gs2 => simp
            | cons d ds ih2 =>
              simp only [List.cons_append, splitOnSpace]
              match h2 : splitOnSpace (ds ++ ' ' :: ys) with
              | [] => exact absurd h2 (splitOnSpace_ne_nil _)
              | g2 :: gs2 =>
                rw [h2] at ih2
                by_cases hd : d = ' '
                · simp [hd] at ih2 ⊢
                · simp [hd] at ih2 ⊢
                  omega
          rw [h] at this
          simp at this
        | cons g2 gs2 => simp

/-! ### Engine data model (src/util.go) -/

/-- Filter comparison operators (src/util.go, filterType constants). -/
inductive filterType
  | equal
  | notEqual
  | greater
  | less
  | greaterOrEqual
  | lessOrEqual
deriving DecidableEq

/-- Sort directions (src/util.go, orderType constants). -/
inductive orderType
  | ascending
  | descending
deriving DecidableEq, BEq

/-- Index kinds.  The constants are declared outside src/; modelled from the
spec (section 3: indexKind is one of numeric, boolean, alpha, none).  The
first constructor doubles as the Go zero value. -/
inductive indexType
  | indexNumeric
  | indexBoolean
  | indexAlpha
  | indexNone
deriving DecidableEq, BEq

/-- The declared (dereferenced) type of a model field, as the Index Catalog
reports it; modelled from the spec (sections 3 and 4.1). -/
inductive FieldType
  | tstring
  | tnumeric
  | tbool
deriving DecidableEq

/-- A Go value passed to Filter: a primitive, or a (possibly nil) pointer. -/
inductive Value
  | str (s : String)
  | num (n : Int)
  | boolean (b : Bool)
  | ptr (v : Value)
  | nilPtr
deriving DecidableEq

/-- reflect.Value.Kind() == reflect.String on the raw, underef-ed value. -/
def Value.isStringKind : Value → Bool
  | .str _ => true
  | _ => false

/-- reflect.Value.String(); only ever called on values validated to be
strings, so the default is unreachable. -/
def Value.getString : Value → String
  | .str s => s
  | _ => ""

/-- The numeric value; only ever read on values validated as numeric. -/
def Value.getNum : Value → Int
  | .num n => n
  | _ => 0

/-- reflect.Value.Bool(); only ever read on values validated as boolean. -/
def Value.getBool : Value → Bool
  | .boolean b => b
  | _ => false

/-- The pointer-indirection loop of Query.Filter: follow pointers; a nil
pointer yields an invalid value. -/
def derefValue : Value → Option Value
  | .ptr v => derefValue v
  | .nilPtr => none
  | v => some v

/-- The dereferenced dynamic type of a primitive value. -/
def valueTypeOf : Value → FieldType
  | .str _ => .tstring
  | .num _ => .tnumeric
  | .boolean _ => .tbool
  | .ptr _ => .tstring
  | .nilPtr => .tstring

/-- Association-list lookup (model of a Go map read). -/
def assocLookup {κ α : Type} [DecidableEq κ] (k : κ) : List (κ × α) → Option α
  | [] => none
  | p :: rest => if p.1 = k then some p.2 else assocLookup k rest

/-- Association-list removal (model of a Go map delete). -/
def assocRemove {κ α : Type} [DecidableEq κ] (k : κ) (l : List (κ × α)) :
    List (κ × α) :=
  l.filter (fun p => !(decide (p.1 = k)))

/-- Per-model schema information.  Modelled from the spec (section 4.1,
Index Catalog): the modelSpec type in src/model.go predates the query engine
and lacks these lookups, which live outside src/; the spec specifies them as
fieldExists, indexKindOf and storeKeyFor. -/
structure modelSpec where
  modelName : String
  modelTypeName : String
  fieldNames : List String
  fieldTypes : List (String × FieldType)
  redisNames : List (String × String)
  indexTypes : List (String × indexType)
deriving DecidableEq

/-- Index Catalog: fieldExists plus the declared field type. -/
def modelSpec.field (ms : modelSpec) (fieldName : String) : Option FieldType :=
  assocLookup fieldName ms.fieldTypes

/-- Index Catalog: indexKindOf (absent when the field is not indexed). -/
def modelSpec.indexTypeForField (ms : modelSpec) (fieldName : String) :
    Option indexType :=
  assocLookup fieldName ms.indexTypes

/-- Index Catalog: storeKeyFor. -/
def modelSpec.redisNameForFieldName (ms : modelSpec) (fieldName : String) :
    Option String :=
  assocLookup fieldName ms.redisNames

/-- Order clause state (src/util.go, type order). -/
structure order where
  fieldName : String
  redisName : String
  orderType : orderType
  indexed : Bool
  indexType : indexType
deriving DecidableEq

/-- Filter state (src/util.go, type filter). -/
structure filter where
  fieldName : String
  redisName : String
  filterType : filterType
  filterValue : Value
  indexType : indexType
  byId : Bool
deriving DecidableEq

/-- Query builder state (src/util.go, type Query). -/
structure Query where
  modelSpec : modelSpec
  includes : List String
  excludes : List String
  order : order
  limit : Nat
  offset : Nat
  filters : List filter
  err : Option String
deriving DecidableEq

/-- The Go zero value of order. -/
def emptyOrder : order :=
  { fieldName := "", redisName := "", orderType := .ascending,
    indexed := false, indexType := .indexNumeric }

/-- The Go zero value of modelSpec. -/
def emptyModelSpec : modelSpec :=
  { modelName := "", modelTypeName := "", fieldNames := [],
    fieldTypes := [], redisNames := [], indexTypes := [] }

/-- Query zero value, as built by NewQuery before the spec is filled in. -/
def emptyQuery : Query :=
  { modelSpec := emptyModelSpec, includes := [], excludes := [],
    order := emptyOrder, limit := 0, offset := 0, filters := [], err := none }

/-! ### Error messages (src/util.go, src/model.go) -/

def errIncludeExclude : String :=
  "zoom: cannot use both Include and Exclude modifiers on a query"

def errOffsetWithoutOrder : String :=
  "zoom: offset cannot be applied to queries without an order."

def errPreviousOrder : String :=
  "zoom: error in Query.Order: previous order already specified. Only one order per query is allowed."

def errOrderNotIndexed (fieldName typeName : String) : String :=
  "zoom: error in Query.Order: field " ++ fieldName ++ " in type " ++ typeName ++
    " is not indexed. Can only order by indexed fields"

def errOrderUnknownField (fieldName typeName : String) : String :=
  "zoom: error in Query.Order: could not find field " ++ fieldName ++
    " in type " ++ typeName

def errTooManySpaces : String :=
  "zoom: too many spaces in fieldStr argument. should be a field name, a space, and an operator."

def errInvalidOperator : String :=
  "zoom: invalid operator in fieldStr. should be one of =, !=, >, <, >=, or <=."

def errInvalidFieldName (typeName fieldName : String) : String :=
  "zoom: invalid fieldName in filterString. Type " ++ typeName ++
    " has no field " ++ fieldName

def errFilterUnindexed (typeName fieldName : String) : String :=
  "zoom: filters are only allowed on indexed fields. " ++ typeName ++ "." ++
    fieldName ++ " is not indexed."

def errNilPointer : String :=
  "zoom: invalid value arg for Filter. Is it a nil pointer?"

def errTypeMismatch : String :=
  "zoom: invalid value arg for Filter. Parsed type of value does not match type of field."

def errIdFilterOperator : String :=
  "zoom: only the = operator can be used with Filter on Id field."

def errIdFilterValueType : String :=
  "zoom: for a Filter on Id field, value must be a string type."

def errFilterUnindexedEval (fieldName modelName : String) : String :=
  "zoom: cannot use filters on unindexed field " ++ fieldName ++
    " for model name " ++ modelName ++ "."

def errModelNameNotRegistered (name : String) : String :=
  "zoom: model name " ++ name ++ " not registered"

def errSchemaNotPtrStruct : String :=
  "zoom: schema must be a pointer to a struct"

def errTypeAlreadyRegistered : String :=
  "zoom: model type already registered"

def errNameAlreadyRegistered (name : String) : String :=
  "zoom: model name " ++ name ++ " already registered"

/-! ### Query builder (src/util.go) -/

/-- setErrorIfNone: record an error only when none is recorded yet. -/
def Query.setErrorIfNone (q : Query) (e : String) : Query :=
  match q.err with
  | none => { q with err := some e }
  | some _ => q

/-- Whether a string starts with a dash (strings.HasPrefix(s, "-")). -/
def startsWithDash (s : String) : Bool :=
  match s.data with
  | c :: _ => c == Char.ofNat 45
  | [] => false

/-- Drop the first character (the byte-slicing fieldName[1:] on a one-byte
dash). -/
def stringTail (s : String) : String := String.mk (s.data.drop 1)

/-- Query.Order (src/util.go lines 370 to 406). -/
def Query.Order (q : Query) (fieldName : String) : Query :=
  let q1 := if q.order.fieldName ≠ "" then q.setErrorIfNone errPreviousOrder else q
  let ot : orderType := if startsWithDash fieldName then .descending else .ascending
  let fieldName1 := if startsWithDash fieldName then stringTail fieldName else fieldName
  match q1.modelSpec.field fieldName1 with
  | some _ =>
    let q2 :=
      match q1.modelSpec.indexTypeForField fieldName1 with
      | none => q1.setErrorIfNone (errOrderNotIndexed fieldName1 q1.modelSpec.modelTypeName)
      | some _ => q1
    let it := (q2.modelSpec.indexTypeForField fieldName1).getD .indexNumeric
    let rn := (q2.modelSpec.redisNameForFieldName fieldName1).getD ""
    let newOrder : Zoom.order :=
      { fieldName := fieldName1, redisName := rn, orderType := ot,
        indexed := true, indexType := it }
    { q2 with order := newOrder }
  | none => q1.setErrorIfNone (errOrderUnknownField fieldName1 q1.modelSpec.modelTypeName)

/-- Query.Limit: store the amount, no validation. -/
def Query.Limit (q : Query) (amount : Nat) : Query := { q with limit := amount }

/-- Query.Offset: store the amount, no validation. -/
def Query.Offset (q : Query) (amount : Nat) : Query := { q with offset := amount }

/-- Query.Include (src/util.go lines 428 to 435). -/
def Query.Include (q : Query) (fields : List String) : Query :=
  if q.excludes.length > 0 then q.setErrorIfNone errIncludeExclude
  else { q with includes := q.includes ++ fields }

/-- Query.Exclude (src/util.go lines 441 to 448). -/
def Query.Exclude (q : Query) (fields : List String) : Query :=
  if q.includes.length > 0 then q.setErrorIfNone errIncludeExclude
  else { q with excludes := q.excludes ++ fields }

/-- splitFilterString: a field name, one space, and an operator. -/
def splitFilterString (filterString : String) : Except String (String × String) :=
  let split := splitOnSpace filterString.data
  if split.length ≠ 2 then .error errTooManySpaces
  else .ok (String.mk (split.getD 0 []), String.mk (split.getD 1 []))

/-- The filterSymbols operator table. -/
def filterSymbols (operator : String) : Option filterType :=
  if operator = "=" then some .equal
  else if operator = "!=" then some .notEqual
  else if operator = ">" then some .greater
  else if operator = "<" then some .less
  else if operator = ">=" then some .greaterOrEqual
  else if operator = "<=" then some .lessOrEqual
  else none

/-- Query.filterById (src/util.go lines 530 to 550).  The filter indexType is
left at the Go zero value; it is never read because byId is tested first. -/
def Query.filterById (q : Query) (operator : String) (value : Value) : Query :=
  if operator ≠ "=" then q.setErrorIfNone errIdFilterOperator
  else if !value.isStringKind then q.setErrorIfNone errIdFilterValueType
  else
    { q with filters := q.filters ++
        [{ fieldName := "Id", redisName := "Id", filterType := .equal,
           filterValue := value, indexType := .indexNumeric, byId := true }] }

/-- Query.Filter (src/util.go lines 459 to 520): parse, validate operator,
resolve redis name and index kind, dereference and type-check the value, then
append the filter. -/
def Query.Filter (q : Query) (filterString : String) (value : Value) : Query :=
  match splitFilterString filterString with
  | .error e => q.setErrorIfNone e
  | .ok (fieldName, operator) =>
    if fieldName = "Id" then q.filterById operator value
    else
      match filterSymbols operator with
      | none => q.setErrorIfNone errInvalidOperator
      | some ft =>
        match q.modelSpec.redisNameForFieldName fieldName with
        | none => q.setErrorIfNone (errInvalidFieldName q.modelSpec.modelTypeName fieldName)
        | some redisName =>
          match q.modelSpec.indexTypeForField fieldName with
          | none => q.setErrorIfNone (errFilterUnindexed q.modelSpec.modelTypeName fieldName)
          | some it =>
            let fieldType := q.modelSpec.field fieldName
            match derefValue value with
            | none => q.setErrorIfNone errNilPointer
            | some v =>
              if some (valueTypeOf v) ≠ fieldType then q.setErrorIfNone errTypeMismatch
              else
                { q with filters := q.filters ++
                    [{ fieldName := fieldName, redisName := redisName,
                       filterType := ft, filterValue := v, indexType := it,
                       byId := false }] }

/-- A builder modifier call, for quantifying over arbitrary chains. -/
inductive Modifier
  | ord (fieldName : String)
  | lim (amount : Nat)
  | off (amount : Nat)
  | inc (fields : List String)
  | exc (fields : List String)
  | flt (filterString : String) (value : Value)

/-- Apply one modifier call to a query builder. -/
def applyModifier (q : Query) : Modifier → Query
  | .ord s => q.Order s
  | .lim n => q.Limit n
  | .off n => q.Offset n
  | .inc fs => q.Include fs
  | .exc fs => q.Exclude fs
  | .flt s v => q.Filter s v

/-! ### Set combinator and alpha decoding (src/util.go) -/

/-- orderedIntersectStrings (src/util.go lines 221 to 233): keep the elements
of the first list that the second list also contains, in the order of the
first list.  The Go memo map is membership in the second list. -/
def orderedIntersectStrings (first second : List String) : List String :=
  first.filter (fun a => second.contains a)

/-- The ASCII DEL sentinel suffix (src/util.go, delString). -/
def delString : String := String.mk [Char.ofNat 127]

/-- extractModelIdFromAlphaIndexValue (src/util.go lines 1118 to 1121): alpha
members are stored as value-space-id; the id is the part after the last
space. -/
def extractModelIdFromAlphaIndexValue (valueAndId : String) : String :=
  let slices := splitOnSpace valueAndId.data
  String.mk (slices.getLastD [])

/-! ### Alpha rank resolver (src/util.go lines 1071 to 1112) -/

/-- The ranks of the two sentinels: insert the target itself (sorting right
before any member carrying exactly the target value) and the target plus the
DEL suffix (sorting right after them), then read both ranks. -/
def getAlphaRanks (target : String) (l : List (Int × String)) : Int × Int :=
  let l2 := zadd 0 (target ++ delString) (zadd 0 target l)
  ((zrank target l2 : Int), (zrank (target ++ delString) l2 : Int))

/-- The store contents after the sentinel batch finishes (both sentinels
removed again by the closing ZREM). -/
def alphaStoreAfterRanks (target : String) (l : List (Int × String)) :
    List (Int × String) :=
  zrem [target, target ++ delString] (zadd 0 (target ++ delString) (zadd 0 target l))

/-- The commands of the atomic sentinel batch. -/
def alphaRanksTrace (setKey target : String) : List RedisCommand :=
  [.zadd setKey 0 target, .zadd setKey 0 (target ++ delString),
   .zrank setKey target, .zrank setKey (target ++ delString),
   .zrem setKey [target, target ++ delString]]

/-- Reverse a list when the flag is set (the in-place reversal loops in Go). -/
def reverseIf (b : Bool) (l : List String) : List String :=
  if b then l.reverse else l

/-! ### Filter planner (src/util.go, filter.getIds, lines 797 to 1069) -/

/-- The numeric branch: one score-range query per comparison, except notEqual
which splits into a less range and a greater range inside one batch. -/
def numericFilterIds (setKey : String) (ft : filterType) (v : Int)
    (reverse : Bool) (l : List (Int × String)) :
    Except String (List String) × List RedisCommand :=
  match ft with
  | .notEqual =>
    let lessIds := zrangebyscore l .negInf (.excl v)
    let greaterIds := zrangebyscore l (.excl v) .posInf
    let trace := [RedisCommand.zrangebyscore setKey .negInf (.excl v),
                  RedisCommand.zrangebyscore setKey (.excl v) .posInf]
    if !reverse then (.ok (lessIds ++ greaterIds), trace)
    else (.ok (greaterIds.reverse ++ lessIds.reverse), trace)
  | _ =>
    let bounds : ScoreBound × ScoreBound :=
      match ft with
      | .equal => (.incl v, .incl v)
      | .less => (.negInf, .excl v)
      | .greater => (.excl v, .posInf)
      | .lessOrEqual => (.negInf, .incl v)
      | .greaterOrEqual => (.incl v, .posInf)
      | .notEqual => (.incl v, .incl v)
    if !reverse then
      (.ok (zrangebyscore l bounds.1 bounds.2), [.zrangebyscore setKey bounds.1 bounds.2])
    else
      (.ok (zrevrangebyscore l bounds.2 bounds.1), [.zrevrangebyscore setKey bounds.2 bounds.1])

/-- One inclusive score-range command over the 0/1 boolean encoding. -/
def boolRangeResult (setKey : String) (mn mx : Int) (reverse : Bool)
    (l : List (Int × String)) :
    Except String (List String) × List RedisCommand :=
  if !reverse then
    (.ok (zrangebyscore l (.incl mn) (.incl mx)), [.zrangebyscore setKey (.incl mn) (.incl mx)])
  else
    (.ok (zrevrangebyscore l (.incl mx) (.incl mn)), [.zrevrangebyscore setKey (.incl mx) (.incl mn)])

/-- The boolean branch (src/util.go lines 882 to 965): impossible comparisons
return empty with no store access, all others issue one score-range query. -/
def booleanFilterIds (setKey : String) (ft : filterType) (b : Bool)
    (reverse : Bool) (l : List (Int × String)) :
    Except String (List String) × List RedisCommand :=
  match ft with
  | .equal => if b then boolRangeResult setKey 1 1 reverse l else boolRangeResult setKey 0 0 reverse l
  | .less => if b then boolRangeResult setKey 0 0 reverse l else (.ok [], [])
  | .greater => if b then (.ok [], []) else boolRangeResult setKey 1 1 reverse l
  | .lessOrEqual => if b then boolRangeResult setKey 0 1 reverse l else boolRangeResult setKey 0 0 reverse l
  | .greaterOrEqual => if b then boolRangeResult setKey 1 1 reverse l else boolRangeResult setKey 0 1 reverse l
  | .notEqual => if b then boolRangeResult setKey 0 0 reverse l else boolRangeResult setKey 1 1 reverse l

/-- The alpha branch (src/util.go lines 967 to 1061): the sentinel batch
yields beforeRank and afterRank, rank formulas select a ZRANGE window over
the restored set, raw members are decoded and reversed when scanning
descending.  Guard clauses return empty without issuing the range. -/
def alphaFilterIds (setKey : String) (ft : filterType) (target : String)
    (reverse : Bool) (l : List (Int × String)) :
    Except String (List String) × List RedisCommand :=
  let br := (getAlphaRanks target l).1
  let ar := (getAlphaRanks target l).2
  let lPost := alphaStoreAfterRanks target l
  let dance := alphaRanksTrace setKey target
  match ft with
  | .equal =>
    if br + 1 = ar then (.ok [], dance)
    else
      (.ok (reverseIf reverse ((zrange lPost br (ar - 2)).map extractModelIdFromAlphaIndexValue)),
       dance ++ [.zrange setKey br (ar - 2)])
  | .less =>
    if ar ≤ 2 then (.ok [], dance)
    else
      (.ok (reverseIf reverse ((zrange lPost 0 (ar - (ar - br) - 1)).map extractModelIdFromAlphaIndexValue)),
       dance ++ [.zrange setKey 0 (ar - (ar - br) - 1)])
  | .greater =>
    (.ok (reverseIf reverse ((zrange lPost (br + (ar - br) - 1) (-1)).map extractModelIdFromAlphaIndexValue)),
     dance ++ [.zrange setKey (br + (ar - br) - 1) (-1)])
  | .lessOrEqual =>
    if ar ≤ 1 then (.ok [], dance)
    else
      (.ok (reverseIf reverse ((zrange lPost 0 (ar - 2)).map extractModelIdFromAlphaIndexValue)),
       dance ++ [.zrange setKey 0 (ar - 2)])
  | .greaterOrEqual =>
    (.ok (reverseIf reverse ((zrange lPost br (-1)).map extractModelIdFromAlphaIndexValue)),
     dance ++ [.zrange setKey br (-1)])
  | .notEqual =>
    let lessIds :=
      if ar > 3 then zrange lPost 0 (ar - (ar - br) - 1) else []
    let lessTrace :=
      if ar > 3 then [RedisCommand.zrange setKey 0 (ar - (ar - br) - 1)] else []
    let greaterIds := zrange lPost (br + (ar - br) - 1) (-1)
    let lessIds2 := lessIds.map extractModelIdFromAlphaIndexValue
    let greaterIds2 := greaterIds.map extractModelIdFromAlphaIndexValue
    if !reverse then
      (.ok (lessIds2 ++ greaterIds2),
       dance ++ lessTrace ++ [.zrange setKey (br + (ar - br) - 1) (-1)])
    else
      (.ok (greaterIds2.reverse ++ lessIds2.reverse),
       dance ++ lessTrace ++ [.zrange setKey (br + (ar - br) - 1) (-1)])

/-- filter.getIds: an Id filter returns its single id with no store access;
otherwise dispatch on the index kind.  The scan direction is reversed only
when the query orders descending on the very same field. -/
def filter.getIds (f : filter) (modelName : String) (o : order) (store : Store) :
    Except String (List String) × List RedisCommand :=
  if f.byId then (.ok [f.filterValue.getString], [])
  else
    let setKey := modelName ++ ":" ++ f.redisName
    let reverse := (o.orderType == .descending) && (o.fieldName == f.fieldName)
    match f.indexType with
    | .indexNumeric => numericFilterIds setKey f.filterType f.filterValue.getNum reverse (store.zsets setKey)
    | .indexBoolean => booleanFilterIds setKey f.filterType f.filterValue.getBool reverse (store.zsets setKey)
    | .indexAlpha => alphaFilterIds setKey f.filterType f.filterValue.getString reverse (store.zsets setKey)
    | .indexNone => (.error (errFilterUnindexedEval f.fieldName modelName), [])

/-! ### Order resolver and coordinator (src/util.go) -/

/-- Query.getOrderedIds (src/util.go lines 760 to 793). -/
def Query.getOrderedIds (q : Query) (store : Store) :
    Except String (List String) × List RedisCommand :=
  let start : Int := q.offset
  let stop : Int := if q.limit = 0 then -1 else (q.offset : Int) + (q.limit : Int) - 1
  let indexKey := q.modelSpec.modelName ++ ":" ++ q.order.redisName
  let raw :=
    if q.order.orderType == .ascending then zrange (store.zsets indexKey) start stop
    else zrevrange (store.zsets indexKey) start stop
  let cmd :=
    if q.order.orderType == .ascending then RedisCommand.zrange indexKey start stop
    else RedisCommand.zrevrange indexKey start stop
  if q.order.indexType == .indexNumeric || q.order.indexType == .indexBoolean then
    (.ok raw, [cmd])
  else
    (.ok (raw.map extractModelIdFromAlphaIndexValue), [cmd])

/-- Query.getIdsWithoutFilters (src/util.go lines 673 to 696). -/
def Query.getIdsWithoutFilters (q : Query) (store : Store) :
    Except String (List String) × List RedisCommand :=
  if q.order.fieldName = "" then
    if q.offset ≠ 0 then (.error errOffsetWithoutOrder, [])
    else
      let indexKey := q.modelSpec.modelName ++ ":all"
      if q.limit = 0 then (.ok (store.sets indexKey), [.smembers indexKey])
      else (.ok (srandmember (store.sets indexKey) q.limit), [.srandmember indexKey q.limit])
  else q.getOrderedIds store

/-- Insert into the idSets map (Go map write: overwrite or add). -/
def idSetsInsert (k : String) (v : List String)
    (m : List (String × List String)) : List (String × List String) :=
  if (assocLookup k m).isSome then
    m.map (fun p => if p.1 = k then (k, v) else p)
  else m ++ [(k, v)]

/-- Outcome of evaluating all filters: an error, a short-circuit because some
filter matched nothing, or the per-field id sets. -/
inductive FilterSetsResult
  | err (e : String)
  | empty
  | sets (idSets : List (String × List String))

/-- Evaluate each filter in order, collecting id sets per field name and
short-circuiting on the first empty result (src/util.go lines 700 to 712).
The Go map is modelled as an insertion-ordered association list; Go map
iteration order is unspecified, which the spec itself flags as affecting only
the anchor choice of the unordered branch. -/
def collectFilterIdSets (modelName : String) (o : order) (store : Store) :
    List filter → List (String × List String) →
    FilterSetsResult × List RedisCommand
  | [], acc => (.sets acc, [])
  | f :: rest, acc =>
    match f.getIds modelName o store with
    | (.error e, tr) => (.err e, tr)
    | (.ok ids, tr) =>
      if ids.length = 0 then (.empty, tr)
      else
        let next := collectFilterIdSets modelName o store rest (idSetsInsert f.fieldName ids acc)
        (next.1, tr ++ next.2)

/-- The anchored intersection of the ordered branch: restrict the primary
list by every other id set (src/util.go lines 744 to 755). -/
def intersectOthers (orderField : String) (primary : List String)
    (idSets : List (String × List String)) : List String :=
  idSets.foldl
    (fun final p => if p.1 ≠ orderField then orderedIntersectStrings final p.2 else final)
    primary

/-- Query.getIdsWithFilters (src/util.go lines 698 to 757). -/
def Query.getIdsWithFilters (q : Query) (store : Store) :
    Except String (List String) × List RedisCommand :=
  match collectFilterIdSets q.modelSpec.modelName q.order store q.filters [] with
  | (.err e, tr) => (.error e, tr)
  | (.empty, tr) => (.ok [], tr)
  | (.sets idSets, tr) =>
    if q.order.fieldName = "" then
      let idSetsSlice := idSets.map (fun p => p.2)
      match idSetsSlice with
      | [] => (.error "zoom: internal error: no filter id sets", tr)
      | first :: _ => (.ok (idSetsSlice.foldl orderedIntersectStrings first), tr)
    else
      match assocLookup q.order.fieldName idSets with
      | some primaryIds => (.ok (intersectOthers q.order.fieldName primaryIds idSets), tr)
      | none =>
        match q.getOrderedIds store with
        | (.error e, tr2) => (.error e, tr ++ tr2)
        | (.ok orderedIds, tr2) =>
          (.ok (intersectOthers q.order.fieldName orderedIds idSets), tr ++ tr2)

/-- Query.GetIds (src/util.go lines 661 to 671). -/
def Query.GetIds (q : Query) (store : Store) :
    Except String (List String) × List RedisCommand :=
  if q.filters.length = 0 then q.getIdsWithoutFilters store
  else q.getIdsWithFilters store

/-- Query.IdsOnly finisher: return the sticky error if any, else evaluate. -/
def Query.IdsOnly (q : Query) (store : Store) :
    Except String (List String) × List RedisCommand :=
  match q.err with
  | some e => (.error e, [])
  | none => q.GetIds store

/-- Query.getIdCount (src/util.go lines 1147 to 1206): cardinality command
plus algebraic clamping by limit and offset. -/
def Query.getIdCount (q : Query) (store : Store) :
    Except String Int × List RedisCommand :=
  if q.order.fieldName = "" then
    if q.offset ≠ 0 then (.error errOffsetWithoutOrder, [])
    else
      let indexKey := q.modelSpec.modelName ++ ":all"
      let count : Int := (store.sets indexKey).length
      if q.limit = 0 then (.ok count, [.scard indexKey])
      else if count > (q.limit : Int) then (.ok (q.limit : Int), [.scard indexKey])
      else (.ok count, [.scard indexKey])
  else
    let indexKey := q.modelSpec.modelName ++ ":" ++ q.order.redisName
    let count : Int := zcard (store.zsets indexKey)
    if q.limit = 0 ∧ q.offset = 0 then (.ok count, [.zcard indexKey])
    else if (q.offset : Int) > count then (.ok 0, [.zcard indexKey])
    else if q.limit = 0 then (.ok (count - (q.offset : Int)), [.zcard indexKey])
    else (.ok (min (count - (q.offset : Int)) (q.limit : Int)), [.zcard indexKey])

/-- Query.Count finisher. -/
def Query.Count (q : Query) (store : Store) :
    Except String Int × List RedisCommand :=
  match q.err with
  | some e => (.error e, [])
  | none => q.getIdCount store

/-! ### Registration maps (src/model.go) -/

/-- The three process-wide registries (typeToName, nameToType, modelSpecs).
Types are identified by an opaque numeric id, standing in for the
reflect.Type identity Go compares. -/
structure Registry where
  typeToName : List (Nat × String)
  nameToType : List (String × Nat)
  modelSpecs : List (String × modelSpec)
deriving DecidableEq

/-- A Go type passed to Register: whether it is a pointer to a struct, its
identity, and the modelSpec that compileModelSpec derives from it (the
reflection walk is outside the scope of the engine; modelled from the spec,
section 4.1, as the already-compiled Index Catalog entry). -/
structure GoType where
  isPtrToStruct : Bool
  id : Nat
  spec : modelSpec
deriving DecidableEq

def alreadyRegisteredName (n : String) (r : Registry) : Bool :=
  (assocLookup n r.nameToType).isSome

def alreadyRegisteredType (tid : Nat) (r : Registry) : Bool :=
  (assocLookup tid r.typeToName).isSome

/-- Register (src/model.go lines 64 to 93): kind check, duplicate checks,
then add the model to all three maps. -/
def Register (typ : GoType) (name : String) (r : Registry) :
    Except String Registry :=
  if !typ.isPtrToStruct then .error errSchemaNotPtrStruct
  else if alreadyRegisteredType typ.id r then .error errTypeAlreadyRegistered
  else if alreadyRegisteredName name r then .error (errNameAlreadyRegistered name)
  else .ok { typeToName := (typ.id, name) :: r.typeToName,
             nameToType := (name, typ.id) :: r.nameToType,
             modelSpecs := (name, typ.spec) :: r.modelSpecs }

/-- UnregisterName (src/model.go lines 127 to 135): delete the nameToType and
typeToName entries; the modelSpecs map is left untouched. -/
def UnregisterName (name : String) (r : Registry) : Except String Registry :=
  match assocLookup name r.nameToType with
  | none => .error (errModelNameNotRegistered name)
  | some tid =>
    .ok { r with nameToType := assocRemove name r.nameToType,
                 typeToName := assocRemove tid r.typeToName }

/-- NewQuery (src/util.go lines 347 to 356): consult the modelSpecs map only;
an unknown name records the sticky not-registered error. -/
def NewQuery (modelName : String) (r : Registry) : Query :=
  match assocLookup modelName r.modelSpecs with
  | none => emptyQuery.setErrorIfNone (errModelNameNotRegistered modelName)
  | some spec => { emptyQuery with modelSpec := spec }

/-! ### Helper lemmas -/

theorem mem_orderedIntersectStrings {x : String} {first second : List String} :
    x ∈ orderedIntersectStrings first second ↔ x ∈ first ∧ x ∈ second := by
  simp [orderedIntersectStrings, List.mem_filter, List.contains, List.elem_iff]

theorem orderedIntersectStrings_sublist (first second : List String) :
    (orderedIntersectStrings first second).Sublist first :=
  List.filter_sublist first

theorem foldl_orderedIntersect_sublist (anchor : List String) :
    ∀ (secondaries : List (List String)),
      (secondaries.foldl orderedIntersectStrings anchor).Sublist anchor := by
  intro secondaries
  induction secondaries generalizing anchor with
  | nil => exact List.Sublist.refl anchor
  | cons l ls ih =>
    exact List.Sublist.trans (ih (orderedIntersectStrings anchor l))
      (orderedIntersectStrings_sublist anchor l)

theorem mem_foldl_orderedIntersect {x : String} (anchor : List String) :
    ∀ (secondaries : List (List String)),
      (x ∈ secondaries.foldl orderedIntersectStrings anchor ↔
        x ∈ anchor ∧ ∀ l ∈ secondaries, x ∈ l) := by
  intro secondaries
  induction secondaries generalizing anchor with
  | nil => simp
  | cons l ls ih =>
    simp only [List.foldl_cons, ih, mem_orderedIntersectStrings, List.mem_cons]
    constructor
    · rintro ⟨⟨hx, hl⟩, hall⟩
      exact ⟨hx, fun m hm => hm.elim (fun h => h ▸ hl) (hall m)⟩
    · rintro ⟨hx, hall⟩
      exact ⟨⟨hx, hall l (Or.inl rfl)⟩, fun m hm => hall m (Or.inr hm)⟩

theorem string_mk_data (s : String) : String.mk s.data = s := rfl

theorem string_data_append (a b : String) : (a ++ b).data = a.data ++ b.data := rfl

/-! ### C5: order-preserving intersection -/

/-- C5: for every anchor list and collection of secondary lists, the set
combinator keeps exactly the anchor elements present in every secondary
list; the result is a sublist of the anchor (anchor order preserved, inputs
untouched since all operations are pure); anchor [5,3,1,4] intersected with
secondary [4,1,9] yields [1,4]. -/
theorem orderedIntersect_spec :
    (∀ (first second : List String) (x : String),
        x ∈ orderedIntersectStrings first second ↔ x ∈ first ∧ x ∈ second) ∧
    (∀ (first second : List String),
        (orderedIntersectStrings first second).Sublist first) ∧
    (∀ (anchor : List String) (secondaries : List (List String)) (x : String),
        x ∈ secondaries.foldl orderedIntersectStrings anchor ↔
          x ∈ anchor ∧ ∀ l ∈ secondaries, x ∈ l) ∧
    (∀ (anchor : List String) (secondaries : List (List String)),
        (secondaries.foldl orderedIntersectStrings anchor).Sublist anchor) ∧
    orderedIntersectStrings ["5", "3", "1", "4"] ["4", "1", "9"] = ["1", "4"] :=
  ⟨fun _ _ _ => mem_orderedIntersectStrings,
   orderedIntersectStrings_sublist,
   fun anchor secondaries x => mem_foldl_orderedIntersect anchor secondaries,
   foldl_orderedIntersect_sublist,
   by decide⟩

/-- Witness for C5: evaluating the combinator characterisation at the
concrete spec example. -/
theorem orderedIntersect_spec_witness :
    "1" ∈ orderedIntersectStrings ["5", "3", "1", "4"] ["4", "1", "9"] :=
  (orderedIntersect_spec.1 ["5", "3", "1", "4"] ["4", "1", "9"] "1").2
    ⟨by decide, by decide⟩

/-! ### C7: alpha member round trip -/

/-- C7: encoding an alpha index member as value-space-id and decoding via the
substring after the last space recovers the id for every value and every
space-free id. -/
theorem alphaMember_roundTrip (value mid : String) (h : ' ' ∉ mid.data) :
    extractModelIdFromAlphaIndexValue (value ++ " " ++ mid) = mid := by
  unfold extractModelIdFromAlphaIndexValue
  have hdata : (value ++ " " ++ mid).data = value.data ++ ' ' :: mid.data := by
    rw [string_data_append, string_data_append, List.append_assoc]
    rfl
  rw [hdata]
  show String.mk ((splitOnSpace (value.data ++ ' ' :: mid.data)).getLastD []) = mid
  rw [splitOnSpace_append_space, splitOnSpace_no_space h]
  rfl

/-- Witness for C7: decoding the composite member for value New York and id
id42 yields id42. -/
theorem alphaMember_roundTrip_witness :
    ' ' ∉ "id42".data ∧
      extractModelIdFromAlphaIndexValue ("New York" ++ " " ++ "id42") = "id42" :=
  ⟨by decide, alphaMember_roundTrip "New York" "id42" (by decide)⟩

/-! ### C4: numeric filter planning -/

/-- C4: a numeric-indexed filter maps each comparison to a single score-range
query, equality to the inclusive range v to v, less to negative infinity up
to v exclusive, greater to v exclusive up to positive infinity, and the
or-equal forms to the inclusive variants; notEqual splits into the less and
greater ranges, concatenated less-then-greater on a forward scan and
greater-reversed then less-reversed on a reverse scan; the scan is reversed
exactly when the query orders descending on the filtered field. -/
theorem numericFilter_scoreRanges :
    (∀ (fn rn modelName : String) (ft : filterType) (v : Int) (o : order) (store : Store),
        filter.getIds
          { fieldName := fn, redisName := rn, filterType := ft,
            filterValue := .num v, indexType := .indexNumeric, byId := false }
          modelName o store =
        numericFilterIds (modelName ++ ":" ++ rn) ft v
          ((o.orderType == .descending) && (o.fieldName == fn))
          (store.zsets (modelName ++ ":" ++ rn))) ∧
    (∀ (key : String) (v : Int) (rev : Bool) (l : List (Int × String)),
        numericFilterIds key .equal v rev l =
          if rev then
            (.ok (zrevrangebyscore l (.incl v) (.incl v)),
             [.zrevrangebyscore key (.incl v) (.incl v)])
          else
            (.ok (zrangebyscore l (.incl v) (.incl v)),
             [.zrangebyscore key (.incl v) (.incl v)])) ∧
    (∀ (key : String) (v : Int) (rev : Bool) (l : List (Int × String)),
        numericFilterIds key .less v rev l =
          if rev then
            (.ok (zrevrangebyscore l (.excl v) .negInf),
             [.zrevrangebyscore key (.excl v) .negInf])
          else
            (.ok (zrangebyscore l .negInf (.excl v)),
             [.zrangebyscore key .negInf (.excl v)])) ∧
    (∀ (key : String) (v : Int) (rev : Bool) (l : List (Int × String)),
        numericFilterIds key .greater v rev l =
          if rev then
            (.ok (zrevrangebyscore l .posInf (.excl v)),
             [.zrevrangebyscore key .posInf (.excl v)])
          else
            (.ok (zrangebyscore l (.excl v) .posInf),
             [.zrangebyscore key (.excl v) .posInf])) ∧
    (∀ (key : String) (v : Int) (rev : Bool) (l : List (Int × String)),
        numericFilterIds key .lessOrEqual v rev l =
          if rev then
            (.ok (zrevrangebyscore l (.incl v) .negInf),
             [.zrevrangebyscore key (.incl v) .negInf])
          else
            (.ok (zrangebyscore l .negInf (.incl v)),
             [.zrangebyscore key .negInf (.incl v)])) ∧
    (∀ (key : String) (v : Int) (rev : Bool) (l : List (Int × String)),
        numericFilterIds key .greaterOrEqual v rev l =
          if rev then
            (.ok (zrevrangebyscore l .posInf (.incl v)),
             [.zrevrangebyscore key .posInf (.incl v)])
          else
            (.ok (zrangebyscore l (.incl v) .posInf),
             [.zrangebyscore key (.incl v) .posInf])) ∧
    (∀ (key : String) (v : Int) (l : List (Int × String)),
        numericFilterIds key .notEqual v false l =
          (.ok (zrangebyscore l .negInf (.excl v) ++ zrangebyscore l (.excl v) .posInf),
           [.zrangebyscore key .negInf (.excl v), .zrangebyscore key (.excl v) .posInf])) ∧
    (∀ (key : String) (v : Int) (l : List (Int × String)),
        numericFilterIds key .notEqual v true l =
          (.ok ((zrangebyscore l (.excl v) .posInf).reverse ++
                  (zrangebyscore l .negInf (.excl v)).reverse),
           [.zrangebyscore key .negInf (.excl v), .zrangebyscore key (.excl v) .posInf])) := by
  refine ⟨fun fn rn modelName ft v o store => rfl, ?_, ?_, ?_, ?_, ?_, ?_, ?_⟩
  all_goals
    first
    | (intro key v rev l
       cases rev <;> rfl)
    | (intro key v l
       rfl)

/-! ### C9: boolean filter planning -/

/-- C9: a boolean-indexed filter with a less-than-false or greater-than-true
comparison returns the empty id list immediately with no store command;
every other boolean comparison issues exactly one inclusive score-range
query with bounds among 0 and 1 (reversed into one ZREVRANGEBYSCORE when
the query orders descending on the same field). -/
theorem booleanFilter_planning :
    (∀ (fn rn modelName : String) (ft : filterType) (b : Bool) (o : order) (store : Store),
        filter.getIds
          { fieldName := fn, redisName := rn, filterType := ft,
            filterValue := .boolean b, indexType := .indexBoolean, byId := false }
          modelName o store =
        booleanFilterIds (modelName ++ ":" ++ rn) ft b
          ((o.orderType == .descending) && (o.fieldName == fn))
          (store.zsets (modelName ++ ":" ++ rn))) ∧
    (∀ (key : String) (rev : Bool) (l : List (Int × String)),
        booleanFilterIds key .less false rev l = (.ok [], []) ∧
        booleanFilterIds key .greater true rev l = (.ok [], [])) ∧
    (∀ (key : String) (rev : Bool) (l : List (Int × String)),
        booleanFilterIds key .equal true rev l = boolRangeResult key 1 1 rev l ∧
        booleanFilterIds key .equal false rev l = boolRangeResult key 0 0 rev l ∧
        booleanFilterIds key .less true rev l = boolRangeResult key 0 0 rev l ∧
        booleanFilterIds key .greater false rev l = boolRangeResult key 1 1 rev l ∧
        booleanFilterIds key .lessOrEqual true rev l = boolRangeResult key 0 1 rev l ∧
        booleanFilterIds key .lessOrEqual false rev l = boolRangeResult key 0 0 rev l ∧
        booleanFilterIds key .greaterOrEqual true rev l = boolRangeResult key 1 1 rev l ∧
        booleanFilterIds key .greaterOrEqual false rev l = boolRangeResult key 0 1 rev l ∧
        booleanFilterIds key .notEqual true rev l = boolRangeResult key 0 0 rev l ∧
        booleanFilterIds key .notEqual false rev l = boolRangeResult key 1 1 rev l) ∧
    (∀ (key : String) (mn mx : Int) (rev : Bool) (l : List (Int × String)),
        boolRangeResult key mn mx rev l =
          if rev then
            (.ok (zrevrangebyscore l (.incl mx) (.incl mn)),
             [.zrevrangebyscore key (.incl mx) (.incl mn)])
          else
            (.ok (zrangebyscore l (.incl mn) (.incl mx)),
             [.zrangebyscore key (.incl mn) (.incl mx)])) := by
  refine ⟨fun fn rn modelName ft b o store => rfl,
    fun key rev l => ⟨rfl, rfl⟩,
    fun key rev l => ⟨rfl, rfl, rfl, rfl, rfl, rfl, rfl, rfl, rfl, rfl⟩,
    fun key mn mx rev l => ?_⟩
  cases rev <;> rfl

/-! ### C8: identifier filters -/

theorem splitFilterString_id_op (op : String) (h : ' ' ∉ op.data) :
    splitFilterString ("Id " ++ op) = .ok ("Id", op) := by
  unfold splitFilterString
  have hdata : ("Id " ++ op).data = 'I' :: 'd' :: ' ' :: op.data := rfl
  rw [hdata]
  have hs : splitOnSpace ('I' :: 'd' :: ' ' :: op.data) = [['I', 'd'], op.data] := by
    have h1 : splitOnSpace op.data = [op.data] := splitOnSpace_no_space h
    simp [splitOnSpace, h1]
  rw [hs]
  simp [string_mk_data]

/-- C8: a filter on the reserved Id field accepts only the equality operator
with a string value (anything else sets the sticky error), and evaluating an
Id filter returns exactly the one-element id list while consulting no store
state and issuing no store command. -/
theorem idFilter_spec :
    (∀ (q : Query) (s : String),
        q.Filter "Id =" (.str s) =
          { q with filters := q.filters ++
              [{ fieldName := "Id", redisName := "Id", filterType := .equal,
                 filterValue := .str s, indexType := .indexNumeric, byId := true }] }) ∧
    (∀ (q : Query) (op : String) (v : Value), ' ' ∉ op.data → op ≠ "=" →
        q.Filter ("Id " ++ op) v = q.setErrorIfNone errIdFilterOperator) ∧
    (∀ (q : Query) (v : Value), v.isStringKind = false →
        q.Filter "Id =" v = q.setErrorIfNone errIdFilterValueType) ∧
    (∀ (fn rn modelName : String) (ft : filterType) (v : Value) (it : indexType)
        (o : order) (store : Store),
        filter.getIds
          { fieldName := fn, redisName := rn, filterType := ft,
            filterValue := v, indexType := it, byId := true }
          modelName o store = (.ok [v.getString], [])) := by
  refine ⟨fun q s => rfl, ?_, ?_, fun fn rn modelName ft v it o store => rfl⟩
  · intro q op v hsp hne
    unfold Query.Filter
    rw [splitFilterString_id_op op hsp]
    simp [Query.filterById, hne]
  · intro q v hv
    unfold Query.Filter
    have h0 : splitFilterString "Id =" = .ok ("Id", "=") := rfl
    rw [h0]
    simp [Query.filterById, hv]

/-- Witness for C8: a non-equality operator and a non-string value each set
the sticky error on a concrete query. -/
theorem idFilter_spec_witness :
    (' ' ∉ ">".data ∧ (">" : String) ≠ "=" ∧
      emptyQuery.Filter ("Id " ++ ">") (.str "a") = emptyQuery.setErrorIfNone errIdFilterOperator) ∧
    ((Value.num 5).isStringKind = false ∧
      emptyQuery.Filter "Id =" (.num 5) = emptyQuery.setErrorIfNone errIdFilterValueType) :=
  ⟨⟨by decide, by decide, idFilter_spec.2.1 emptyQuery ">" (.str "a") (by decide) (by decide)⟩,
   ⟨rfl, idFilter_spec.2.2.1 emptyQuery (.num 5) rfl⟩⟩

/-! ### C10: registry desynchronisation after UnregisterName -/

theorem NewQuery_found {n : String} {r : Registry} {spec : modelSpec}
    (h : assocLookup n r.modelSpecs = some spec) :
    NewQuery n r = { emptyQuery with modelSpec := spec } := by
  unfold NewQuery
  rw [h]

theorem assocLookup_assocRemove_self {κ α : Type} [DecidableEq κ] (k : κ)
    (l : List (κ × α)) : assocLookup k (assocRemove k l) = none := by
  induction l with
  | nil => rfl
  | cons p rest ih =>
    unfold assocRemove at ih ⊢
    by_cases h : p.1 = k
    · simpa [List.filter_cons, h] using ih
    · simpa [List.filter_cons, h, assocLookup] using ih

/-- A concrete schema used by the witnesses. -/
def demoSpec : modelSpec :=
  { modelName := "person", modelTypeName := "zoom.Person",
    fieldNames := ["Name", "Age", "Alive"],
    fieldTypes := [("Name", .tstring), ("Age", .tnumeric), ("Alive", .tbool)],
    redisNames := [("Name", "Name"), ("Age", "Age"), ("Alive", "Alive")],
    indexTypes := [("Name", .indexAlpha), ("Age", .indexNumeric), ("Alive", .indexBoolean)] }

def emptyRegistry : Registry := { typeToName := [], nameToType := [], modelSpecs := [] }

def demoGoType : GoType := { isPtrToStruct := true, id := 1, spec := demoSpec }

/-- C10: after a successful Register followed by a successful UnregisterName,
constructing a query for the name records no not-registered error: the
name-to-type and type-to-name entries are gone but the modelSpecs entry the
query constructor consults survives, so the three maps are out of sync. -/
theorem unregister_leaves_modelSpecs (r r2 r3 : Registry) (typ : GoType)
    (name : String)
    (hreg : Register typ name r = .ok r2)
    (hunreg : UnregisterName name r2 = .ok r3) :
    (NewQuery name r3).err = none ∧
    (NewQuery name r3).modelSpec = typ.spec ∧
    assocLookup name r3.nameToType = none ∧
    assocLookup typ.id r3.typeToName = none ∧
    assocLookup name r3.modelSpecs = some typ.spec := by
  unfold Register at hreg
  by_cases h1 : typ.isPtrToStruct
  · simp only [h1, Bool.not_true, Bool.false_eq_true, if_false] at hreg
    by_cases h2 : alreadyRegisteredType typ.id r
    · simp [h2] at hreg
    · simp only [h2, Bool.false_eq_true, if_false] at hreg
      by_cases h3 : alreadyRegisteredName name r
      · simp [h3] at hreg
      · simp only [h3, Bool.false_eq_true, if_false, Except.ok.injEq] at hreg
        subst hreg
        unfold UnregisterName at hunreg
        simp [assocLookup] at hunreg
        subst hunreg
        have hlook : assocLookup name
            ((name, typ.spec) :: r.modelSpecs) = some typ.spec := by
          simp [assocLookup]
        refine ⟨?_, ?_, ?_, ?_, hlook⟩
        · rw [NewQuery_found hlook]
          simp [emptyQuery]
        · rw [NewQuery_found hlook]
        · exact assocLookup_assocRemove_self name _
        · exact assocLookup_assocRemove_self typ.id _
  · simp [h1] at hreg

/-- Witness for C10: registering a concrete model, unregistering its name,
then constructing a query for the name records no error and still finds the
surviving modelSpecs entry. -/
theorem unregister_leaves_modelSpecs_witness :
    (NewQuery "person"
        { typeToName := [], nameToType := [],
          modelSpecs := [("person", demoSpec)] }).err = none ∧
    assocLookup "person"
        ({ typeToName := [], nameToType := [],
           modelSpecs := [("person", demoSpec)] } : Registry).modelSpecs =
      some demoSpec :=
  ⟨(unregister_leaves_modelSpecs emptyRegistry
      { typeToName := [(1, "person")], nameToType := [("person", 1)],
        modelSpecs := [("person", demoSpec)] }
      { typeToName := [], nameToType := [],
        modelSpecs := [("person", demoSpec)] }
      demoGoType "person" rfl rfl).1,
   (unregister_leaves_modelSpecs emptyRegistry
      { typeToName := [(1, "person")], nameToType := [("person", 1)],
        modelSpecs := [("person", demoSpec)] }
      { typeToName := [], nameToType := [],
        modelSpecs := [("person", demoSpec)] }
      demoGoType "person" rfl rfl).2.2.2.2⟩

/-! ### C1: sticky errors -/

theorem setErrorIfNone_err_some {q : Query} {e : String} (h : q.err = some e)
    (e2 : String) : (q.setErrorIfNone e2).err = some e := by
  simp [Query.setErrorIfNone, h]

theorem Order_err_some {q : Query} {e : String} (h : q.err = some e)
    (s : String) : (q.Order s).err = some e := by
  have h1 : (if q.order.fieldName ≠ "" then q.setErrorIfNone errPreviousOrder
      else q).err = some e := by
    split
    · exact setErrorIfNone_err_some h _
    · exact h
  unfold Query.Order
  revert h1
  generalize (if q.order.fieldName ≠ "" then q.setErrorIfNone errPreviousOrder else q) = q1
  intro h1
  dsimp only
  split
  · split
    · exact setErrorIfNone_err_some h1 _
    · exact h1
  · exact setErrorIfNone_err_some h1 _

theorem Include_err_some {q : Query} {e : String} (h : q.err = some e)
    (fs : List String) : (q.Include fs).err = some e := by
  unfold Query.Include
  split
  · exact setErrorIfNone_err_some h _
  · exact h

theorem Exclude_err_some {q : Query} {e : String} (h : q.err = some e)
    (fs : List String) : (q.Exclude fs).err = some e := by
  unfold Query.Exclude
  split
  · exact setErrorIfNone_err_some h _
  · exact h

theorem filterById_err_some {q : Query} {e : String} (h : q.err = some e)
    (op : String) (v : Value) : (q.filterById op v).err = some e := by
  unfold Query.filterById
  split
  · exact setErrorIfNone_err_some h _
  · split
    · exact setErrorIfNone_err_some h _
    · exact h

theorem Filter_err_some {q : Query} {e : String} (h : q.err = some e)
    (s : String) (v : Value) : (q.Filter s v).err = some e := by
  unfold Query.Filter
  split
  · exact setErrorIfNone_err_some h _
  · split
    · exact filterById_err_some h _ _
    · split
      · exact setErrorIfNone_err_some h _
      · split
        · exact setErrorIfNone_err_some h _
        · split
          · exact setErrorIfNone_err_some h _
          · split
            · exact setErrorIfNone_err_some h _
            · dsimp only
              split
              · exact setErrorIfNone_err_some h _
              · exact h

theorem applyModifier_err_some {q : Query} {e : String} (h : q.err = some e) :
    ∀ m : Modifier, (applyModifier q m).err = some e
  | .ord s => Order_err_some h s
  | .lim _ => h
  | .off _ => h
  | .inc fs => Include_err_some h fs
  | .exc fs => Exclude_err_some h fs
  | .flt s v => Filter_err_some h s v

theorem IdsOnly_err_some {q : Query} {e : String} (h : q.err = some e)
    (store : Store) : q.IdsOnly store = (.error e, []) := by
  simp [Query.IdsOnly, h]

theorem Count_err_some {q : Query} {e : String} (h : q.err = some e)
    (store : Store) : q.Count store = (.error e, []) := by
  simp [Query.Count, h]

theorem includeExclude_conflict {q : Query} (h : q.err = none)
    (hx : q.excludes = []) (x : String) (ys : List String) :
    ((q.Include [x]).Exclude ys).err = some errIncludeExclude := by
  have hlen : ¬ (q.excludes.length > 0) := by
    rw [hx]
    simp
  have hInc : q.Include [x] = { q with includes := q.includes ++ [x] } := by
    unfold Query.Include
    rw [if_neg hlen]
  rw [hInc]
  unfold Query.Exclude
  have hlen2 : ({ q with includes := q.includes ++ [x] } : Query).includes.length > 0 := by
    simp
  rw [if_pos hlen2]
  simp [Query.setErrorIfNone, h]

/-- C1 (amended): the first invalid modifier call sets the sticky error,
which is never overwritten afterwards (first error wins) and is returned by
every finisher thereafter; later modifier calls still return a builder and
keep the error intact, though they may still mutate non-error builder state;
Include followed by Exclude records the conflict error and every finisher
keeps returning exactly that error even after further modifier calls. -/
theorem stickyError_spec :
    (∀ (q : Query) (e : String) (m : Modifier), q.err = some e →
        (applyModifier q m).err = some e) ∧
    (∀ (q : Query) (e : String) (store : Store), q.err = some e →
        q.IdsOnly store = (.error e, []) ∧ q.Count store = (.error e, [])) ∧
    (∀ (q : Query) (x : String) (ys : List String), q.err = none → q.excludes = [] →
        ((q.Include [x]).Exclude ys).err = some errIncludeExclude) ∧
    (∀ (q : Query) (x : String) (ys : List String) (m : Modifier) (store : Store),
        q.err = none → q.excludes = [] →
        (applyModifier ((q.Include [x]).Exclude ys) m).IdsOnly store =
          (.error errIncludeExclude, []) ∧
        (applyModifier ((q.Include [x]).Exclude ys) m).Count store =
          (.error errIncludeExclude, [])) := by
  refine ⟨fun q e m h => applyModifier_err_some h m,
    fun q e store h => ⟨IdsOnly_err_some h store, Count_err_some h store⟩,
    fun q x ys h hx => includeExclude_conflict h hx x ys,
    fun q x ys m store h hx => ?_⟩
  have hc := includeExclude_conflict h hx x ys
  have hm := applyModifier_err_some hc m
  exact ⟨IdsOnly_err_some hm store, Count_err_some hm store⟩

/-- Witness for C1: the preserved error and the finisher results at concrete
queries. -/
theorem stickyError_spec_witness :
    (applyModifier { emptyQuery with err := some "boom" } (.lim 5)).err = some "boom" ∧
    Query.IdsOnly { emptyQuery with err := some "boom" }
      { sets := fun _ => [], zsets := fun _ => [] } = (.error "boom", []) ∧
    ((emptyQuery.Include ["x"]).Exclude ["y"]).err = some errIncludeExclude ∧
    (applyModifier ((emptyQuery.Include ["x"]).Exclude ["y"]) (.off 7)).IdsOnly
      { sets := fun _ => [], zsets := fun _ => [] } = (.error errIncludeExclude, []) :=
  ⟨stickyError_spec.1 _ "boom" (.lim 5) rfl,
   (stickyError_spec.2.1 _ "boom" _ rfl).1,
   stickyError_spec.2.2.1 emptyQuery "x" ["y"] rfl rfl,
   (stickyError_spec.2.2.2 emptyQuery "x" ["y"] (.off 7) _ rfl rfl).1⟩

/-- C1 counterexample: modifier calls after the sticky error are not no-ops
for builder state.  After the Include/Exclude conflict, Limit 5 still
changes the stored limit, so the resulting builder differs from the errored
one. -/
theorem stickyError_counterexample :
    ((emptyQuery.Include ["x"]).Exclude ["y"]).err = some errIncludeExclude ∧
    (((emptyQuery.Include ["x"]).Exclude ["y"]).Limit 5).limit = 5 ∧
    ((emptyQuery.Include ["x"]).Exclude ["y"]).limit = 0 ∧
    ((emptyQuery.Include ["x"]).Exclude ["y"]).Limit 5 ≠
      (emptyQuery.Include ["x"]).Exclude ["y"] := by
  decide

/-! ### C2: offset without an order -/

/-- The empty store. -/
def emptyStore : Store := { sets := fun _ => [], zsets := fun _ => [] }

/-- A populated registry holding the demo schema. -/
def demoRegistry : Registry :=
  { typeToName := [(1, "person")], nameToType := [("person", 1)],
    modelSpecs := [("person", demoSpec)] }

/-- A filtered query with offset 1 and no order. -/
def c2Query : Query :=
  ((NewQuery "person" demoRegistry).Filter "Id =" (.str "abc")).Offset 1

/-- C2 counterexample: a query with offset 1, no order, and a filter
evaluates without any error: the ids finisher returns the filter result and
silently ignores the offset, where the claim demands an error regardless of
filters. -/
theorem offsetWithoutOrder_counterexample :
    c2Query.offset = 1 ∧ c2Query.order.fieldName = "" ∧
    c2Query.filters.length = 1 ∧ c2Query.err = none ∧
    Query.IdsOnly c2Query emptyStore = (.ok ["abc"], []) := by
  refine ⟨rfl, rfl, rfl, rfl, rfl⟩

/-- C2 (amended): offset greater than zero without an order yields the
offset error from the ids finisher only when the query has no filters, and
from the count finisher regardless of filters; with filters the ids path
ignores the offset entirely. -/
theorem offsetWithoutOrder_amended :
    (∀ (q : Query) (store : Store), q.err = none → q.order.fieldName = "" →
        q.offset ≠ 0 → q.filters = [] →
        q.IdsOnly store = (.error errOffsetWithoutOrder, [])) ∧
    (∀ (q : Query) (store : Store), q.err = none → q.order.fieldName = "" →
        q.offset ≠ 0 →
        q.Count store = (.error errOffsetWithoutOrder, [])) := by
  constructor
  · intro q store herr hord hoff hfil
    simp [Query.IdsOnly, herr, Query.GetIds, hfil,
      Query.getIdsWithoutFilters, hord, hoff]
  · intro q store herr hord hoff
    simp [Query.Count, herr, Query.getIdCount, hord, hoff]

/-- Witness for C2 (amended): a concrete unfiltered query with offset 3 and
no order errors from both finishers. -/
theorem offsetWithoutOrder_amended_witness :
    Query.IdsOnly { emptyQuery with offset := 3 } emptyStore =
      (.error errOffsetWithoutOrder, []) ∧
    Query.Count { emptyQuery with offset := 3 } emptyStore =
      (.error errOffsetWithoutOrder, []) :=
  ⟨offsetWithoutOrder_amended.1 { emptyQuery with offset := 3 } emptyStore
      rfl rfl (by decide) rfl,
   offsetWithoutOrder_amended.2 { emptyQuery with offset := 3 } emptyStore
      rfl rfl (by decide)⟩

/-! ### C6: count with order, algebraic clamping -/

/-- C6: for an unfiltered query with an order and sticky-error-free state,
count() issues exactly one cardinality command (no id materialisation) and
clamps algebraically: 0 when offset exceeds the stored count, count minus
offset when limit is 0, and the minimum of count minus offset and limit
otherwise. -/
theorem count_unfiltered_ordered (q : Query) (store : Store)
    (herr : q.err = none) (_hfil : q.filters = [])
    (hord : q.order.fieldName ≠ "") :
    Query.Count q store =
      (.ok (if (q.offset : Int) >
              zcard (store.zsets (q.modelSpec.modelName ++ ":" ++ q.order.redisName))
            then 0
            else if q.limit = 0 then
              zcard (store.zsets (q.modelSpec.modelName ++ ":" ++ q.order.redisName)) -
                (q.offset : Int)
            else
              min (zcard (store.zsets (q.modelSpec.modelName ++ ":" ++ q.order.redisName)) -
                (q.offset : Int)) (q.limit : Int)),
       [.zcard (q.modelSpec.modelName ++ ":" ++ q.order.redisName)]) := by
  have hcard : (0 : Int) ≤
      zcard (store.zsets (q.modelSpec.modelName ++ ":" ++ q.order.redisName)) :=
    Int.natCast_nonneg _
  simp only [Query.Count, herr]
  unfold Query.getIdCount
  rw [if_neg hord]
  set n : Int := zcard (store.zsets (q.modelSpec.modelName ++ ":" ++ q.order.redisName))
    with hn
  by_cases hoff : (q.offset : Int) > n
  · have h1 : ¬ (q.limit = 0 ∧ q.offset = 0) := by
      rintro ⟨-, ho⟩
      rw [ho] at hoff
      simp only [Nat.cast_zero] at hoff
      omega
    rw [if_neg h1, if_pos hoff, if_pos hoff]
  · by_cases hlim : q.limit = 0
    · by_cases hzero : q.offset = 0
      · rw [if_pos ⟨hlim, hzero⟩, if_neg hoff, if_pos hlim, hzero]
        simp
      · rw [if_neg (by rintro ⟨-, ho⟩; exact hzero ho), if_neg hoff, if_neg hoff,
          if_pos hlim, if_pos hlim]
    · rw [if_neg (by rintro ⟨hl, -⟩; exact hlim hl), if_neg hoff, if_neg hoff,
        if_neg hlim, if_neg hlim]

/-- An ascending numeric order on the demo Age field. -/
def c6Order : Zoom.order :=
  { fieldName := "Age", redisName := "Age", orderType := .ascending,
    indexed := true, indexType := .indexNumeric }

/-- A store whose Age index holds 100 members. -/
def c6Store : Store :=
  { sets := fun _ => [],
    zsets := fun k =>
      if k = "person:Age" then
        (List.range 100).map (fun i => ((i : Int), toString i))
      else [] }

def c6QueryA : Query :=
  { emptyQuery with
      modelSpec := demoSpec, order := c6Order, limit := 10, offset := 95 }

def c6QueryB : Query :=
  { emptyQuery with
      modelSpec := demoSpec, order := c6Order, limit := 10, offset := 150 }

/-- Witness for C6: a sorted set with 100 stored ids; limit 10 with offset 95
counts 5; offset 150 counts 0. -/
theorem count_unfiltered_ordered_witness :
    Query.Count c6QueryA c6Store = (.ok 5, [.zcard "person:Age"]) ∧
    Query.Count c6QueryB c6Store = (.ok 0, [.zcard "person:Age"]) := by
  constructor
  · rw [count_unfiltered_ordered c6QueryA c6Store rfl rfl (by decide)]
    rfl
  · rw [count_unfiltered_ordered c6QueryB c6Store rfl rfl (by decide)]
    rfl

/-! ### C3: alpha rank ranges -/

theorem strNeAppendDel (t : String) : t ≠ t ++ delString := by
  intro h
  have hd := congrArg (fun s => s.data.length) h
  simp only at hd
  rw [string_data_append] at hd
  simp [delString] at hd

theorem strLtB_self_append_del (t : String) :
    strLtB t (t ++ delString) = true := by
  show charListLtB t.data (t ++ delString).data = true
  rw [string_data_append]
  show charListLtB t.data (t.data ++ [Char.ofNat 127]) = true
  induction t.data with
  | nil => simp [charListLtB]
  | cons a as ih => simp [charListLtB, ih]

theorem zadd_not_present {m : String} {l : List (Int × String)}
    (h : ∀ p ∈ l, p.2 ≠ m) (s : Int) : zadd s m l = l ++ [(s, m)] := by
  unfold zadd
  rw [if_neg]
  simp only [List.any_eq_true, not_exists, not_and, Bool.not_eq_true]
  intro p hp
  simp only [beq_eq_false_iff_ne, ne_eq]
  exact h p hp

theorem alphaSentinels_fresh {t : String} {l : List (Int × String)}
    (h1 : ∀ p ∈ l, p.2 ≠ t) (h2 : ∀ p ∈ l, p.2 ≠ t ++ delString) :
    zadd 0 (t ++ delString) (zadd 0 t l) =
      l ++ [(0, t), (0, t ++ delString)] := by
  rw [zadd_not_present h1]
  rw [zadd_not_present]
  · simp
  · intro p hp
    rcases List.mem_append.1 hp with hpl | hpr
    · exact h2 p hpl
    · simp only [List.mem_singleton] at hpr
      rw [hpr]
      exact fun hc => strNeAppendDel t hc

theorem alphaStoreAfterRanks_fresh {t : String} {l : List (Int × String)}
    (h1 : ∀ p ∈ l, p.2 ≠ t) (h2 : ∀ p ∈ l, p.2 ≠ t ++ delString) :
    alphaStoreAfterRanks t l = l := by
  unfold alphaStoreAfterRanks
  rw [alphaSentinels_fresh h1 h2]
  unfold zrem
  rw [List.filter_append]
  have hkeep : (l.filter (fun p => !([t, t ++ delString].contains p.2))) = l := by
    apply List.filter_eq_self.2
    intro p hp
    have e1 : (p.2 == t) = false := beq_eq_false_iff_ne.2 (h1 p hp)
    have e2 : (p.2 == t ++ delString) = false := beq_eq_false_iff_ne.2 (h2 p hp)
    simp [List.contains, List.elem, e1, e2]
  simp only [hkeep]
  have hne : (t ++ delString) ≠ t := fun hc => strNeAppendDel t hc.symm
  simp [List.contains, List.elem, hne]
  cases t ++ delString == t <;> rfl

theorem rankSlice_ne_nil (L : List (Int × String)) (s e : Int)
    (hs : 0 ≤ s) (hse : s ≤ e) (he : e ≤ (L.length : Int) - 1) :
    rankSlice L s e ≠ [] := by
  unfold rankSlice
  dsimp only
  rw [if_neg (by omega : ¬ s < 0), if_neg (by omega : ¬ e < 0),
    min_eq_left he, if_neg (by omega : ¬ s > e)]
  have hlen : (((L.drop s.toNat).take (e - s + 1).toNat).map (fun p => p.2)).length =
      min (e - s + 1).toNat (L.length - s.toNat) := by
    rw [List.length_map, List.length_take, List.length_drop]
  intro hc
  rw [hc] at hlen
  simp only [List.length_nil] at hlen
  omega

theorem zrange_ne_nil (L : List (Int × String)) (s e : Int)
    (hs : 0 ≤ s) (hse : s ≤ e) (he : e ≤ (L.length : Int) - 1) :
    zrange L s e ≠ [] := by
  unfold zrange
  exact rankSlice_ne_nil (zsort L) s e hs hse (by rw [zsort_length]; exact he)

theorem getAlphaRanks_eq {t : String} {l : List (Int × String)}
    (h1 : ∀ p ∈ l, p.2 ≠ t) (h2 : ∀ p ∈ l, p.2 ≠ t ++ delString) :
    getAlphaRanks t l =
      ((((zsort (l ++ [(0, t), (0, t ++ delString)])).map (fun p => p.2)).indexOf t : Int),
       (((zsort (l ++ [(0, t), (0, t ++ delString)])).map (fun p => p.2)).indexOf
          (t ++ delString) : Int)) := by
  unfold getAlphaRanks zrank
  rw [alphaSentinels_fresh h1 h2]

/-- The pair stored at the rank of a member value. -/
theorem pair_at_indexOf (s : List (Int × String)) (m : String)
    (hm : m ∈ s.map (fun p => p.2)) :
    ∃ p : Int × String, s[(s.map (fun p => p.2)).indexOf m]? = some p ∧ p.2 = m := by
  have h1 : (s.map (fun p => p.2))[(s.map (fun p => p.2)).indexOf m]? = some m :=
    List.getElem?_indexOf hm
  rw [List.getElem?_map] at h1
  cases h2 : s[(s.map (fun p => p.2)).indexOf m]? with
  | none =>
    rw [h2] at h1
    simp at h1
  | some p =>
    rw [h2] at h1
    simp at h1
    exact ⟨p, rfl, h1⟩

theorem alphaRanks_facts {t : String} {l : List (Int × String)}
    (h1 : ∀ p ∈ l, p.2 ≠ t) (h2 : ∀ p ∈ l, p.2 ≠ t ++ delString) :
    0 ≤ (getAlphaRanks t l).1 ∧
      (getAlphaRanks t l).1 < (getAlphaRanks t l).2 ∧
      (getAlphaRanks t l).2 ≤ (l.length : Int) + 1 := by
  have hne : t ≠ t ++ delString := strNeAppendDel t
  have hranks := getAlphaRanks_eq h1 h2
  set l2 := l ++ [(0, t), (0, t ++ delString)] with hl2def
  set s := zsort l2 with hsdef
  have hsLen : s.length = l.length + 2 := by
    rw [hsdef, zsort_length, hl2def]
    simp
  have hmem_t : (0, t) ∈ s := by
    rw [hsdef, zsort_mem, hl2def]
    simp
  have hmem_td : (0, t ++ delString) ∈ s := by
    rw [hsdef, zsort_mem, hl2def]
    simp
  have ht_ms : t ∈ s.map (fun p => p.2) :=
    List.mem_map_of_mem (fun p => p.2) hmem_t
  have htd_ms : (t ++ delString) ∈ s.map (fun p => p.2) :=
    List.mem_map_of_mem (fun p => p.2) hmem_td
  have huniq_t : ∀ p ∈ s, p.2 = t → p = (0, t) := by
    intro p hp hpt
    rw [hsdef, zsort_mem, hl2def] at hp
    rcases List.mem_append.1 hp with hpl | hpr
    · exact absurd hpt (h1 p hpl)
    · simp only [List.mem_cons, List.not_mem_nil, or_false] at hpr
      rcases hpr with hpr | hpr
      · rw [hpr]
      · exfalso
        rw [hpr] at hpt
        exact hne hpt.symm
  have huniq_td : ∀ p ∈ s, p.2 = t ++ delString → p = (0, t ++ delString) := by
    intro p hp hpt
    rw [hsdef, zsort_mem, hl2def] at hp
    rcases List.mem_append.1 hp with hpl | hpr
    · exact absurd hpt (h2 p hpl)
    · simp only [List.mem_cons, List.not_mem_nil, or_false] at hpr
      rcases hpr with hpr | hpr
      · exfalso
        rw [hpr] at hpt
        exact hne hpt
      · rw [hpr]
  obtain ⟨pb, hpbq, hpbt⟩ := pair_at_indexOf s t ht_ms
  obtain ⟨pa, hpaq, hpat⟩ := pair_at_indexOf s (t ++ delString) htd_ms
  obtain ⟨hbs, hpb_get⟩ := List.getElem?_eq_some.1 hpbq
  obtain ⟨has, hpa_get⟩ := List.getElem?_eq_some.1 hpaq
  have hpb_eq : pb = (0, t) := huniq_t pb (hpb_get ▸ List.getElem_mem hbs) hpbt
  have hpa_eq : pa = (0, t ++ delString) :=
    huniq_td pa (hpa_get ▸ List.getElem_mem has) hpat
  have hlt : (s.map (fun p => p.2)).indexOf t <
      (s.map (fun p => p.2)).indexOf (t ++ delString) := by
    rcases Nat.lt_trichotomy ((s.map (fun p => p.2)).indexOf t)
      ((s.map (fun p => p.2)).indexOf (t ++ delString)) with h | h | h
    · exact h
    · exfalso
      apply hne
      have hsame : pb = pa := by
        rw [← hpb_get, ← hpa_get]
        congr 1

      rw [hpb_eq, hpa_eq] at hsame
      exact congrArg Prod.snd hsame
    · exfalso
      have hsorted : List.Sorted pairLe s := zsort_sorted l2
      have hrel := hsorted.rel_get_of_lt
        (a := ⟨(s.map (fun p => p.2)).indexOf (t ++ delString), has⟩)
        (b := ⟨(s.map (fun p => p.2)).indexOf t, hbs⟩)
        (by exact h)
      rw [List.get_eq_getElem, List.get_eq_getElem] at hrel
      simp only at hrel
      rw [hpb_get, hpa_get, hpa_eq, hpb_eq] at hrel
      rcases hrel with hrel | ⟨-, hrel⟩
      · exact absurd hrel (lt_irrefl 0)
      · rw [strLeB] at hrel
        rw [strLtB_self_append_del t] at hrel
        simp at hrel
  have haub : (s.map (fun p => p.2)).indexOf (t ++ delString) ≤ l.length + 1 := by
    have : (s.map (fun p => p.2)).indexOf (t ++ delString) < s.length := has
    omega
  rw [hranks]
  dsimp only
  refine ⟨Int.natCast_nonneg _, ?_, ?_⟩
  · exact_mod_cast hlt
  · exact_mod_cast haub

/-- The four-member alpha index of the spec example: values apple, banana,
banana, cherry with ids 1 to 4. -/
def fruitStore4 : List (Int × String) :=
  [(0, "apple 1"), (0, "banana 2"), (0, "banana 3"), (0, "cherry 4")]

/-- C3 counterexample: on a store holding the single member value a with
id 1, the less-than-b filter computes beforeRank 1 and afterRank 2, hits the
afterRank-at-most-2 guard and returns empty without issuing any range
command, while the rank range [0, afterRank-(afterRank-beforeRank)-1] the
claim prescribes evaluates to id 1. -/
theorem alphaLess_counterexample :
    getAlphaRanks "b" [((0 : Int), "a 1")] = (1, 2) ∧
    alphaFilterIds "k" .less "b" false [((0 : Int), "a 1")] =
      (.ok [], alphaRanksTrace "k" "b") ∧
    ((zrange (alphaStoreAfterRanks "b" [((0 : Int), "a 1")]) 0
        ((getAlphaRanks "b" [((0 : Int), "a 1")]).2 -
          ((getAlphaRanks "b" [((0 : Int), "a 1")]).2 -
            (getAlphaRanks "b" [((0 : Int), "a 1")]).1) - 1)).map
      extractModelIdFromAlphaIndexValue) = ["1"] :=
  ⟨rfl, rfl, rfl⟩

/-- C3 (amended): the sentinel batch leaves the store as it found it and
yields beforeRank and afterRank; equality evaluates the rank sub-range
[beforeRank, afterRank-2] and returns empty exactly when
beforeRank+1 = afterRank; less evaluates [0, afterRank-(afterRank-beforeRank)-1]
unless afterRank is at most 2, in which case it short-circuits to empty
without issuing the range command; greater evaluates
[beforeRank+(afterRank-beforeRank)-1, end]; lessOrEqual and greaterOrEqual
are the inclusive variants, lessOrEqual short-circuiting when afterRank is at
most 1; on the sorted set holding apple, banana, banana, cherry with ids
1 to 4, equality on banana returns ids 2 and 3 in stored order, less returns
id 1, and greater returns id 4. -/
theorem alphaFilter_rankRanges :
    (∀ (target : String) (l : List (Int × String)),
        (∀ p ∈ l, p.2 ≠ target) → (∀ p ∈ l, p.2 ≠ target ++ delString) →
        alphaStoreAfterRanks target l = l) ∧
    (∀ (key target : String) (rev : Bool) (l : List (Int × String)),
        (∀ p ∈ l, p.2 ≠ target) → (∀ p ∈ l, p.2 ≠ target ++ delString) →
        ((alphaFilterIds key .equal target rev l).1 = .ok [] ↔
          (getAlphaRanks target l).1 + 1 = (getAlphaRanks target l).2)) ∧
    (∀ (key target : String) (rev : Bool) (l : List (Int × String)),
        (getAlphaRanks target l).1 + 1 ≠ (getAlphaRanks target l).2 →
        alphaFilterIds key .equal target rev l =
          (.ok (reverseIf rev ((zrange (alphaStoreAfterRanks target l)
              (getAlphaRanks target l).1 ((getAlphaRanks target l).2 - 2)).map
                extractModelIdFromAlphaIndexValue)),
           alphaRanksTrace key target ++
             [.zrange key (getAlphaRanks target l).1
                ((getAlphaRanks target l).2 - 2)])) ∧
    (∀ (key target : String) (rev : Bool) (l : List (Int × String)),
        (getAlphaRanks target l).2 ≤ 2 →
        alphaFilterIds key .less target rev l = (.ok [], alphaRanksTrace key target)) ∧
    (∀ (key target : String) (rev : Bool) (l : List (Int × String)),
        ¬ ((getAlphaRanks target l).2 ≤ 2) →
        alphaFilterIds key .less target rev l =
          (.ok (reverseIf rev ((zrange (alphaStoreAfterRanks target l) 0
              ((getAlphaRanks target l).2 -
                ((getAlphaRanks target l).2 - (getAlphaRanks target l).1) - 1)).map
                extractModelIdFromAlphaIndexValue)),
           alphaRanksTrace key target ++
             [.zrange key 0 ((getAlphaRanks target l).2 -
                ((getAlphaRanks target l).2 - (getAlphaRanks target l).1) - 1)])) ∧
    (∀ (key target : String) (rev : Bool) (l : List (Int × String)),
        alphaFilterIds key .greater target rev l =
          (.ok (reverseIf rev ((zrange (alphaStoreAfterRanks target l)
              ((getAlphaRanks target l).1 +
                ((getAlphaRanks target l).2 - (getAlphaRanks target l).1) - 1) (-1)).map
                extractModelIdFromAlphaIndexValue)),
           alphaRanksTrace key target ++
             [.zrange key ((getAlphaRanks target l).1 +
                ((getAlphaRanks target l).2 - (getAlphaRanks target l).1) - 1) (-1)])) ∧
    (∀ (key target : String) (rev : Bool) (l : List (Int × String)),
        ((getAlphaRanks target l).2 ≤ 1 →
          alphaFilterIds key .lessOrEqual target rev l =
            (.ok [], alphaRanksTrace key target)) ∧
        (¬ ((getAlphaRanks target l).2 ≤ 1) →
          alphaFilterIds key .lessOrEqual target rev l =
            (.ok (reverseIf rev ((zrange (alphaStoreAfterRanks target l) 0
                ((getAlphaRanks target l).2 - 2)).map
                  extractModelIdFromAlphaIndexValue)),
             alphaRanksTrace key target ++
               [.zrange key 0 ((getAlphaRanks target l).2 - 2)]))) ∧
    (∀ (key target : String) (rev : Bool) (l : List (Int × String)),
        alphaFilterIds key .greaterOrEqual target rev l =
          (.ok (reverseIf rev ((zrange (alphaStoreAfterRanks target l)
              (getAlphaRanks target l).1 (-1)).map
                extractModelIdFromAlphaIndexValue)),
           alphaRanksTrace key target ++
             [.zrange key (getAlphaRanks target l).1 (-1)])) ∧
    ((alphaFilterIds "fruit:Name" .equal "banana" false fruitStore4).1 =
        .ok ["2", "3"] ∧
      (alphaFilterIds "fruit:Name" .less "banana" false fruitStore4).1 =
        .ok ["1"] ∧
      (alphaFilterIds "fruit:Name" .greater "banana" false fruitStore4).1 =
        .ok ["4"]) := by
  refine ⟨fun target l h1 h2 => alphaStoreAfterRanks_fresh h1 h2,
    ?_, ?_, ?_, ?_, ?_, ?_, ?_, ⟨rfl, rfl, rfl⟩⟩
  · intro key target rev l hf1 hf2
    constructor
    · intro hres
      by_contra hneq
      obtain ⟨hge0, hlt, hub⟩ := alphaRanks_facts hf1 hf2
      have hpost := alphaStoreAfterRanks_fresh hf1 hf2
      have hnn : zrange (alphaStoreAfterRanks target l) (getAlphaRanks target l).1
          ((getAlphaRanks target l).2 - 2) ≠ [] := by
        rw [hpost]
        exact zrange_ne_nil l _ _ hge0 (by omega) (by omega)
      unfold alphaFilterIds at hres
      dsimp only at hres
      rw [if_neg hneq] at hres
      simp only [Except.ok.injEq] at hres
      apply hnn
      cases rev with
      | false =>
        simp only [reverseIf, Bool.false_eq_true, if_false] at hres
        exact List.map_eq_nil_iff.1 hres
      | true =>
        simp only [reverseIf, if_true] at hres
        rw [List.reverse_eq_nil_iff] at hres
        exact List.map_eq_nil_iff.1 hres
    · intro heq
      unfold alphaFilterIds
      dsimp only
      rw [if_pos heq]
  · intro key target rev l hneq
    unfold alphaFilterIds
    dsimp only
    rw [if_neg hneq]
  · intro key target rev l hle
    unfold alphaFilterIds
    dsimp only
    rw [if_pos hle]
  · intro key target rev l hgt
    unfold alphaFilterIds
    dsimp only
    rw [if_neg hgt]
  · intro key target rev l
    rfl
  · intro key target rev l
    constructor
    · intro hle
      unfold alphaFilterIds
      dsimp only
      rw [if_pos hle]
    · intro hgt
      unfold alphaFilterIds
      dsimp only
      rw [if_neg hgt]
  · intro key target rev l
    rfl

/-- Witness for C3 (amended): on the four-member example store, equality on
the absent value durian computes beforeRank 4, afterRank 5 and is empty. -/
theorem alphaFilter_rankRanges_witness :
    (alphaFilterIds "fruit:Name" .equal "durian" false fruitStore4).1 = .ok [] :=
  (alphaFilter_rankRanges.2.1 "fruit:Name" "durian" false fruitStore4
      (by decide) (by decide)).2 (by decide)

end Zoom

